import Mathlib

/-!
Shallow embedding of `txt2abs.cpp` (MAINDEC-CQKC repository): a translator
from an octal text transcription of a PDP-11 program to "absolute format"
binary blocks.

Modelling conventions:
- machine integers (`u4_t` = 32-bit unsigned, `u1_t` = byte) are `Nat` with
  explicit `% 2^32` / `% 256` at the points where the C code truncates;
- the bitmask conditional-compilation state (`lvl`, `inside_if`,
  `ignore_input`) is kept as `Nat` with `&&&`, `|||`, `^^^` exactly as in C
  (`~lvl` on a `u4_t` becomes `(2^32 - 1) ^^^ lvl`);
- input lines are abstract tokens (`Line`), one constructor per recognized
  `sscanf` pattern of the C main loop, in the same dispatch structure;
- the output file is modelled as the list of blocks written by `write_abs`,
  each recorded as its address-field source together with its data bytes;
  `serBlock` is the byte-level serialization `write_abs` performs for one
  block (signature, length, address, data, checksum), and `outBytes` is the
  byte stream of the whole file;
- `error(...)` increments the error counter `errs` and appends a tagged
  diagnostic; `note(...)` only appends a diagnostic.  The side effects of
  `error` on the file system (removing the output file) and all stdout
  printing are outside the model.
-/

namespace Txt2Abs

/-- Range of the C type `u4_t` (unsigned 32-bit). -/
def U32 : Nat := 2 ^ 32

/-- All-ones 32-bit mask, used to model `~x` on a `u4_t`. -/
def U32M : Nat := U32 - 1

/-- Kinds of diagnostics emitted by `error()` / `note()` calls in the C code. -/
inductive Diag where
  | rangeErr        -- "range ..." messages
  | parityErr       -- "odd pc=..."
  | consistErr      -- "consistency check, expecting ..."
  | nestErr         -- unbalanced #else / #endif
  | synErr          -- "syntax error ..."
  | errDirective    -- a #error line
  | warnNote        -- a #warning line (note, not error)
  | defNote         -- the informational "#define ..." printf
  deriving DecidableEq

/-- Translator state: the global variables of `txt2abs.cpp` that the
    translation loop reads and writes. -/
structure St where
  lvl : Nat                     -- u4_t lvl (bit mask, starts at 1)
  inside_if : Nat               -- u4_t inside_if
  ignore_input : Nat            -- u4_t ignore_input
  ifdefs : List String          -- char *ifdefs[] (defined symbols)
  pc : Nat                      -- u4_t pc
  org : Nat                     -- u4_t org
  acc : List Nat                -- bytes written through sp into blk.data
  have_blk : Bool               -- bool have_blk
  out : List (Nat × List Nat)   -- blocks written: (addr-field source, data)
  errs : Nat                    -- int errs
  diags : List Diag             -- trace of error()/note() calls
  deriving DecidableEq

/-- Effect of one `error(...)` call on the modelled state. -/
def mkErr (s : St) (d : Diag) : St :=
  { s with errs := s.errs + 1, diags := s.diags ++ [d] }

/-- Effect of one `note(...)` call on the modelled state. -/
def mkNote (s : St) (d : Diag) : St :=
  { s with diags := s.diags ++ [d] }

/-- Little-endian 16-bit encoding, as performed by `write_le` / `writeHL_le`:
    low byte `w & 0xff` first, then `(w >> 8) & 0xff`. -/
def enc16 (w : Nat) : List Nat := [w % 256, (w >>> 8) % 256]

/-- Value held by a serialized little-endian 16-bit field. -/
def dec16 (bs : List Nat) : Nat :=
  match bs with
  | [lo, hi] => lo + 256 * hi
  | _ => 0

/-- Byte-level serialization of one absolute-format block, as written by
    `write_abs`: signature field (`ABS_SIG` = 1), length field
    (`len + HDR_LEN` = data length + 6, checksum-exclusive), address field,
    the data bytes, and the checksum byte
    `(0x100 - (sig + lenL + lenH + addrL + addrH + sum of data) & 0xff) & 0xff`. -/
def serBlock (org : Nat) (data : List Nat) : List Nat :=
  let lenField := data.length + 6
  let cksum :=
    (0x100 - ((1 + (enc16 lenField).sum + (enc16 org).sum + data.sum) % 0x100)) % 0x100
  enc16 1 ++ enc16 lenField ++ enc16 org ++ data ++ [cksum]

/-- The `abs_t` enum of the C code. -/
inductive AbsTy where
  | blk
  | halt
  deriving DecidableEq

/-- Tail of `write_abs` once it decides to emit: record the block (address
    field source and accumulated data), then reset `have_blk`, the data
    pointer and set `org = pc`. -/
def flushOut (s : St) (a : Nat) : St :=
  { s with out := s.out ++ [(a, s.acc)], have_blk := false, acc := [], org := s.pc }

/-- Model of `write_abs`: for `ABS_BLK` it returns immediately when no block
    is pending, otherwise emits at the current `org`; for `ABS_HALT` it
    forces the address field to 1 (odd = halt sentinel) and always emits. -/
def writeAbs (ty : AbsTy) (s : St) : St :=
  match ty with
  | .blk => if s.have_blk then flushOut s s.org else s
  | .halt => flushOut s 1

/-- Byte stream of the output file: concatenation of the serializations of
    the blocks written so far. -/
def outBytes (s : St) : List Nat :=
  (s.out.map (fun p => serBlock p.1 p.2)).flatten

/-- Abstract input lines, one constructor per pattern the C main loop
    recognizes (blank and `//` comment lines are dropped before dispatch and
    are not represented). `words` carries the 1-3 octal values of a data
    line; `junk` is any other unrecognized non-empty line. -/
inductive Line where
  | elseL                       -- "#else"
  | endifL                      -- "#endif"
  | if1                         -- "#if 1"
  | if0                         -- "#if 0"
  | ifdefL (sym : String)       -- "#ifdef SYM"
  | defineL (sym : String)      -- "#define SYM"
  | errL                        -- "#error ..."
  | warnL                       -- "#warning ..."
  | orig (v : Nat)              -- "= OCTAL"
  | chkCur (v : Nat)            -- ":: OCTAL"
  | chkPrev (v : Nat)           -- ": OCTAL"
  | byteL (v : Nat)             -- "b OCTAL"
  | words (ws : List Nat)       -- "OCTAL [OCTAL [OCTAL]]"
  | junk                        -- anything else (sscanf matches nothing)
  deriving DecidableEq

/-- One range check of a scanned word value (`if (w > 0177777) error(...)`). -/
def rangeErr177777 (t : St) (w : Nat) : St :=
  if 0o177777 < w then mkErr t Diag.rangeErr else t

/-- `write_le(sp, w); pc += 2;` — append one word little-endian, advance pc. -/
def appendWord (t : St) (w : Nat) : St :=
  { t with acc := t.acc ++ enc16 w, pc := (t.pc + 2) % U32 }

/-- `*sp++ = b; pc += 1;` — append one byte (truncated to 8 bits), advance pc. -/
def appendByte (t : St) (b : Nat) : St :=
  { t with acc := t.acc ++ [b % 256], pc := (t.pc + 1) % U32 }

/-- Handling of the non-conditional line forms (the part of the C loop body
    after `if (ignore_input) continue;`). Scanned `%o` values live in
    `u4_t` variables, hence the `% U32` normalizations. -/
def stepActive (s : St) (ln : Line) : St :=
  match ln with
  | .defineL sym => mkNote { s with ifdefs := s.ifdefs ++ [sym] } .defNote
  | .errL => mkErr s .errDirective
  | .warnL => mkNote s .warnNote
  | .orig v0 =>
      let v := v0 % U32
      let t := writeAbs .blk s
      let t := rangeErr177777 t v
      { t with pc := v, org := v }
  | .chkCur v0 =>
      let v := v0 % U32
      let t := rangeErr177777 s v
      let t := if t.pc ≠ v then mkErr t .consistErr else t
      writeAbs .blk t
  | .chkPrev v0 =>
      let v := v0 % U32
      let t := rangeErr177777 s v
      -- `int pcm2 = pc - 2;` then compared against the u4_t `chk`:
      -- both operands are converted to u4_t, i.e. (pc - 2) mod 2^32.
      let pcm2 := (t.pc + U32 - 2) % U32
      let t := if pcm2 ≠ v then mkErr t .consistErr else t
      writeAbs .blk t
  | .byteL v0 =>
      let v := v0 % U32
      let t := if 0o377 < v then mkErr s .rangeErr else s
      { appendByte t v with have_blk := true }
  | .words ws0 =>
      if ws0.length = 0 ∨ 3 < ws0.length then mkErr s .synErr
      else
        let ws := ws0.map (· % U32)
        let t := ws.foldl rangeErr177777 s
        let t := if t.pc % 2 = 1 then mkErr t .parityErr else t
        { ws.foldl appendWord t with have_blk := true }
  | .junk => mkErr s .synErr
  | _ => s

/-- One iteration of the main translation loop on an already-classified line.
    The conditional-compilation directives come first and are always
    evaluated; everything else is skipped while `ignore_input` is nonzero,
    exactly as in the C code. -/
def step (s : St) (ln : Line) : St :=
  match ln with
  | .elseL =>
      if s.inside_if &&& s.lvl = 0 then mkErr s .nestErr
      else { s with ignore_input := s.ignore_input ^^^ s.lvl }
  | .endifL =>
      let t := { s with inside_if := s.inside_if &&& (U32M ^^^ s.lvl),
                        ignore_input := s.ignore_input &&& (U32M ^^^ s.lvl),
                        lvl := s.lvl / 2 }
      if t.lvl = 0 then mkErr t .nestErr else t
  | .if1 =>
      let l := s.lvl * 2 % U32
      { s with lvl := l, inside_if := s.inside_if ||| l,
               ignore_input := s.ignore_input &&& (U32M ^^^ l) }
  | .if0 =>
      let l := s.lvl * 2 % U32
      { s with lvl := l, inside_if := s.inside_if ||| l,
               ignore_input := s.ignore_input ||| l }
  | .ifdefL sym =>
      let l := s.lvl * 2 % U32
      let t := { s with lvl := l, inside_if := s.inside_if ||| l }
      if s.ifdefs.contains sym then
        { t with ignore_input := s.ignore_input &&& (U32M ^^^ l) }
      else
        { t with ignore_input := s.ignore_input ||| l }
  | ln =>
      if s.ignore_input ≠ 0 then s else stepActive s ln

/-- Conditional-compilation directive forms, which the main loop evaluates
    even while input is being ignored. -/
def isCond (ln : Line) : Bool :=
  match ln with
  | .elseL | .endifL | .if1 | .if0 | .ifdefL _ => true
  | _ => false

/-- Initial state: all C globals zero-initialized, `lvl = 1`, and the define
    list seeded from the `--def` command-line flags. -/
def initSt (defs : List String) : St :=
  { lvl := 1, inside_if := 0, ignore_input := 0, ifdefs := defs,
    pc := 0, org := 0, acc := [], have_blk := false, out := [],
    errs := 0, diags := [] }

/-- State after the main loop has consumed a list of classified lines. -/
def runLines (defs : List String) (ls : List Line) : St :=
  ls.foldl step (initSt defs)

/-- End of input: `write_abs(ABS_BLK); write_abs(ABS_HALT);`. -/
def finalize (s : St) : St := writeAbs .halt (writeAbs .blk s)

/-- Full run of the translator on a classified input. -/
def runProg (defs : List String) (ls : List Line) : St :=
  finalize (runLines defs ls)

/-- Pending-block invariant: `have_blk` holds exactly when the accumulator is
    nonempty, and an empty accumulator implies `org = pc`. -/
def blkInv (s : St) : Prop :=
  (s.have_blk = true ↔ s.acc ≠ []) ∧ (s.acc = [] → s.org = s.pc)

/-- Master invariant used across the proofs: pc fits in a `u4_t`, the
    pending-block invariant holds, and every block written so far by an
    `ABS_BLK` flush has nonempty data. -/
def Inv (s : St) : Prop :=
  s.pc < U32 ∧ blkInv s ∧ (∀ p ∈ s.out, p.2 ≠ ([] : List Nat))

lemma U32_pos : 0 < U32 := by decide

lemma enc16_mod_u16 (w : Nat) : enc16 (w % 65536) = enc16 w := by
  simp only [enc16, Nat.shiftRight_eq_div_pow, List.cons.injEq, and_true]
  constructor
  · omega
  · omega

lemma enc16_ne_nil (w : Nat) : enc16 w ≠ [] := by simp [enc16]

lemma flatten_enc16_ne_nil (ws : List Nat) (h : ws ≠ []) :
    (ws.map enc16).flatten ≠ [] := by
  cases ws with
  | nil => exact absurd rfl h
  | cons w rest => simp [enc16]

lemma foldRange_eq (ws : List Nat) (t : St) :
    ws.foldl rangeErr177777 t
      = { t with errs := t.errs + ws.countP (fun w => decide (0o177777 < w)),
                 diags := t.diags ++
                   (ws.filter (fun w => decide (0o177777 < w))).map
                     (fun _ => Diag.rangeErr) } := by
  induction ws generalizing t with
  | nil => simp
  | cons w rest ih =>
    by_cases h : 0o177777 < w
    · simp [List.foldl_cons, rangeErr177777, h, ih, mkErr, List.countP_cons,
        List.filter_cons]
      omega
    · simp [List.foldl_cons, rangeErr177777, h, ih, List.countP_cons,
        List.filter_cons]

lemma foldAppend_eq (ws : List Nat) (t : St) :
    ws.foldl appendWord t
      = { t with acc := t.acc ++ (ws.map enc16).flatten,
                 pc := (ws.foldl appendWord t).pc } := by
  induction ws generalizing t with
  | nil => simp
  | cons w rest ih =>
    simp only [List.foldl_cons, List.map_cons, List.flatten_cons]
    rw [ih (appendWord t w)]
    simp [appendWord, List.append_assoc]

lemma foldAppend_pc (ws : List Nat) (t : St) (h : t.pc < U32) :
    (ws.foldl appendWord t).pc = (t.pc + 2 * ws.length) % U32 := by
  induction ws generalizing t with
  | nil => simp [Nat.mod_eq_of_lt h]
  | cons w rest ih =>
    simp only [List.foldl_cons, List.length_cons]
    rw [ih (appendWord t w) (by simp [appendWord]; exact Nat.mod_lt _ U32_pos)]
    simp only [appendWord, Nat.mod_add_mod]
    congr 1
    ring

lemma foldAppend_pc_lt (ws : List Nat) (t : St) (h : t.pc < U32) :
    (ws.foldl appendWord t).pc < U32 := by
  rw [foldAppend_pc ws t h]
  exact Nat.mod_lt _ U32_pos

lemma blkInv_mkErr (s : St) (d : Diag) (h : blkInv s) : blkInv (mkErr s d) := h

lemma blkInv_mkNote (s : St) (d : Diag) (h : blkInv s) : blkInv (mkNote s d) := h

lemma blkInv_flushOut (s : St) (a : Nat) : blkInv (flushOut s a) := by
  simp [blkInv, flushOut]

lemma blkInv_writeAbs (ty : AbsTy) (s : St) (h : blkInv s) :
    blkInv (writeAbs ty s) := by
  cases ty with
  | halt => exact blkInv_flushOut s 1
  | blk =>
    by_cases hb : s.have_blk
    · simpa [writeAbs, hb] using blkInv_flushOut s s.org
    · simpa [writeAbs, hb] using h

lemma writeAbs_blk_spec (s : St) (h : blkInv s) :
    (writeAbs .blk s).acc = [] ∧ (writeAbs .blk s).have_blk = false
    ∧ (writeAbs .blk s).org = s.pc ∧ (writeAbs .blk s).pc = s.pc
    ∧ (writeAbs .blk s).errs = s.errs ∧ (writeAbs .blk s).diags = s.diags
    ∧ (writeAbs .blk s).out
        = s.out ++ (if s.have_blk then [(s.org, s.acc)] else []) := by
  by_cases hb : s.have_blk
  · simp [writeAbs, flushOut, hb]
  · have hacc : s.acc = [] := by
      rcases h with ⟨h1, _⟩
      by_contra hne
      exact hb (h1.mpr hne)
    have horg : s.org = s.pc := h.2 hacc
    simp [writeAbs, hb, hacc, horg]

lemma blkInv_ext (s t : St) (hb : t.have_blk = s.have_blk) (ha : t.acc = s.acc)
    (ho : t.org = s.org) (hp : t.pc = s.pc) (h : blkInv s) : blkInv t := by
  unfold blkInv at h ⊢
  rw [hb, ha, ho, hp]
  exact h

lemma blkInv_rangeErr (s : St) (w : Nat) (h : blkInv s) :
    blkInv (rangeErr177777 s w) := by
  unfold rangeErr177777
  split
  · exact h
  · exact h

lemma gate_fields (c : Prop) [Decidable c] (s : St) (d : Diag) :
    (if c then mkErr s d else s).acc = s.acc
    ∧ (if c then mkErr s d else s).pc = s.pc
    ∧ (if c then mkErr s d else s).org = s.org
    ∧ (if c then mkErr s d else s).have_blk = s.have_blk
    ∧ (if c then mkErr s d else s).out = s.out
    ∧ (if c then mkErr s d else s).ifdefs = s.ifdefs := by
  split <;> simp [mkErr]

lemma step_eq_of_not_cond (s : St) (ln : Line) (h : isCond ln = false) :
    step s ln = if s.ignore_input ≠ 0 then s else stepActive s ln := by
  cases ln <;> first | rfl | simp [isCond] at h

lemma stepActive_orig (s : St) (v0 : Nat) :
    stepActive s (.orig v0) =
      { rangeErr177777 (writeAbs .blk s) (v0 % U32) with
        pc := v0 % U32, org := v0 % U32 } := rfl

lemma stepActive_chkCur (s : St) (v0 : Nat) :
    stepActive s (.chkCur v0) =
      writeAbs .blk
        (if (rangeErr177777 s (v0 % U32)).pc ≠ v0 % U32 then
          mkErr (rangeErr177777 s (v0 % U32)) .consistErr
        else rangeErr177777 s (v0 % U32)) := rfl

lemma stepActive_chkPrev (s : St) (v0 : Nat) :
    stepActive s (.chkPrev v0) =
      writeAbs .blk
        (if ((rangeErr177777 s (v0 % U32)).pc + U32 - 2) % U32 ≠ v0 % U32 then
          mkErr (rangeErr177777 s (v0 % U32)) .consistErr
        else rangeErr177777 s (v0 % U32)) := rfl

lemma stepActive_byteL (s : St) (v0 : Nat) :
    stepActive s (.byteL v0) =
      { appendByte (if 0o377 < v0 % U32 then mkErr s .rangeErr else s)
          (v0 % U32) with have_blk := true } := rfl

lemma stepActive_words (s : St) (ws0 : List Nat) :
    stepActive s (.words ws0) =
      if ws0.length = 0 ∨ 3 < ws0.length then mkErr s .synErr
      else
        { (ws0.map (· % U32)).foldl appendWord
            (if ((ws0.map (· % U32)).foldl rangeErr177777 s).pc % 2 = 1 then
              mkErr ((ws0.map (· % U32)).foldl rangeErr177777 s) .parityErr
            else (ws0.map (· % U32)).foldl rangeErr177777 s) with
          have_blk := true } := rfl

lemma map_mod_ne_nil (ws0 : List Nat) (h : ¬(ws0.length = 0 ∨ 3 < ws0.length)) :
    ws0.map (· % U32) ≠ [] := by
  intro hmap
  rw [List.map_eq_nil_iff] at hmap
  exact h (Or.inl (by rw [hmap]; rfl))

lemma blkInv_stepActive (s : St) (ln : Line) (h : blkInv s) :
    blkInv (stepActive s ln) := by
  cases ln with
  | elseL => exact h
  | endifL => exact h
  | if1 => exact h
  | if0 => exact h
  | ifdefL sym => exact h
  | defineL sym => exact blkInv_ext s _ rfl rfl rfl rfl h
  | errL => exact h
  | warnL => exact h
  | junk => exact h
  | orig v0 =>
    have hspec := writeAbs_blk_spec s h
    rw [stepActive_orig]
    have ha : (rangeErr177777 (writeAbs .blk s) (v0 % U32)).acc = [] := by
      unfold rangeErr177777
      split <;> simp [mkErr, hspec.1]
    constructor
    · show _ ↔ (rangeErr177777 (writeAbs .blk s) (v0 % U32)).acc ≠ []
      rw [ha]
      have hb : (rangeErr177777 (writeAbs .blk s) (v0 % U32)).have_blk = false := by
        unfold rangeErr177777
        split <;> simp [mkErr, hspec.2.1]
      show (rangeErr177777 (writeAbs .blk s) (v0 % U32)).have_blk = true ↔ _
      rw [hb]
      simp
    · intro _
      rfl
  | chkCur v0 =>
    rw [stepActive_chkCur]
    apply blkInv_writeAbs
    split
    · exact blkInv_rangeErr s _ h
    · exact blkInv_rangeErr s _ h
  | chkPrev v0 =>
    rw [stepActive_chkPrev]
    apply blkInv_writeAbs
    split
    · exact blkInv_rangeErr s _ h
    · exact blkInv_rangeErr s _ h
  | byteL v0 =>
    rw [stepActive_byteL]
    constructor
    · simp [appendByte]
    · intro hacc
      simp [appendByte] at hacc
  | words ws0 =>
    rw [stepActive_words]
    split
    · exact h
    · rename_i hlen
      have hfl := flatten_enc16_ne_nil _ (map_mod_ne_nil ws0 hlen)
      rw [foldAppend_eq]
      constructor
      · constructor
        · intro _ hacc
          rw [List.append_eq_nil] at hacc
          exact hfl hacc.2
        · intro _
          rfl
      · intro hacc
        rw [List.append_eq_nil] at hacc
        exact absurd hacc.2 hfl

lemma blkInv_step (s : St) (ln : Line) (h : blkInv s) : blkInv (step s ln) := by
  cases hc : isCond ln with
  | true =>
    cases ln <;> simp [isCond] at hc <;>
      first
      | (apply blkInv_ext s _ ?_ ?_ ?_ ?_ h <;>
          (simp only [step] <;> split <;> rfl))
  | false =>
    rw [step_eq_of_not_cond s ln hc]
    split
    · exact h
    · exact blkInv_stepActive s ln h

lemma step_cond_same (s : St) (ln : Line) (h : isCond ln = true) :
    (step s ln).pc = s.pc ∧ (step s ln).acc = s.acc ∧ (step s ln).org = s.org
    ∧ (step s ln).have_blk = s.have_blk ∧ (step s ln).out = s.out := by
  cases ln with
  | elseL => simp only [step]; split <;> simp [mkErr]
  | endifL => simp only [step]; split <;> simp [mkErr]
  | if1 => exact ⟨rfl, rfl, rfl, rfl, rfl⟩
  | if0 => exact ⟨rfl, rfl, rfl, rfl, rfl⟩
  | ifdefL sym => simp only [step]; split <;> exact ⟨rfl, rfl, rfl, rfl, rfl⟩
  | defineL sym => simp [isCond] at h
  | errL => simp [isCond] at h
  | warnL => simp [isCond] at h
  | orig v0 => simp [isCond] at h
  | chkCur v0 => simp [isCond] at h
  | chkPrev v0 => simp [isCond] at h
  | byteL v0 => simp [isCond] at h
  | words ws0 => simp [isCond] at h
  | junk => simp [isCond] at h

lemma writeAbs_pc (ty : AbsTy) (s : St) : (writeAbs ty s).pc = s.pc := by
  cases ty with
  | blk => by_cases hb : s.have_blk <;> simp [writeAbs, hb, flushOut]
  | halt => rfl

lemma rangeErr_fields (s : St) (w : Nat) :
    (rangeErr177777 s w).acc = s.acc ∧ (rangeErr177777 s w).pc = s.pc
    ∧ (rangeErr177777 s w).org = s.org
    ∧ (rangeErr177777 s w).have_blk = s.have_blk
    ∧ (rangeErr177777 s w).out = s.out
    ∧ (rangeErr177777 s w).ifdefs = s.ifdefs :=
  gate_fields _ s .rangeErr

lemma out_writeAbs_blk (t : St) (hb : blkInv t)
    (hout : ∀ p ∈ t.out, p.2 ≠ ([] : List Nat)) :
    ∀ p ∈ (writeAbs .blk t).out, p.2 ≠ ([] : List Nat) := by
  intro p hp
  by_cases hbt : t.have_blk
  · simp only [writeAbs, hbt, if_true, flushOut] at hp
    rcases List.mem_append.mp hp with hp | hp
    · exact hout p hp
    · have hpe : p = (t.org, t.acc) := by simpa using hp
      rw [hpe]
      exact hb.1.mp hbt
  · simp only [writeAbs, hbt, if_false] at hp
    exact hout p hp

lemma byteL_spec (s : St) (v0 : Nat) :
    stepActive s (.byteL v0) =
      { s with
        acc := s.acc ++ [v0 % U32 % 256],
        pc := (s.pc + 1) % U32,
        have_blk := true,
        errs := s.errs + (if 0o377 < v0 % U32 then 1 else 0),
        diags := s.diags ++ (if 0o377 < v0 % U32 then [Diag.rangeErr] else []) } := by
  rw [stepActive_byteL]
  by_cases hr : 0o377 < v0 % U32 <;> simp [hr, mkErr, appendByte]

lemma words_spec (s : St) (ws0 : List Nat)
    (hlen : ¬(ws0.length = 0 ∨ 3 < ws0.length)) (hpc : s.pc < U32) :
    stepActive s (.words ws0) =
      { s with
        acc := s.acc ++ ((ws0.map (· % U32)).map enc16).flatten,
        pc := (s.pc + 2 * ws0.length) % U32,
        have_blk := true,
        errs := s.errs
          + (ws0.map (· % U32)).countP (fun w => decide (0o177777 < w))
          + (if s.pc % 2 = 1 then 1 else 0),
        diags := (s.diags
          ++ ((ws0.map (· % U32)).filter (fun w => decide (0o177777 < w))).map
              (fun _ => Diag.rangeErr))
          ++ (if s.pc % 2 = 1 then [Diag.parityErr] else []) } := by
  rw [stepActive_words, if_neg hlen, foldRange_eq]
  by_cases hp : s.pc % 2 = 1
  · rw [if_pos (by simpa using hp), foldAppend_eq, foldAppend_pc _ _
      (show (mkErr { s with
          errs := s.errs + (ws0.map (· % U32)).countP (fun w => decide (0o177777 < w)),
          diags := s.diags ++ ((ws0.map (· % U32)).filter
            (fun w => decide (0o177777 < w))).map (fun _ => Diag.rangeErr) }
          Diag.parityErr).pc < U32 from hpc)]
    simp [mkErr, hp]
  · rw [if_neg (by simpa using hp), foldAppend_eq, foldAppend_pc _ _
      (show ({ s with
          errs := s.errs + (ws0.map (· % U32)).countP (fun w => decide (0o177777 < w)),
          diags := s.diags ++ ((ws0.map (· % U32)).filter
            (fun w => decide (0o177777 < w))).map (fun _ => Diag.rangeErr) } : St).pc
          < U32 from hpc)]
    simp [mkErr, hp]

lemma pc_stepActive (s : St) (ln : Line) (hpc : s.pc < U32) :
    (stepActive s ln).pc < U32 := by
  cases ln with
  | elseL => exact hpc
  | endifL => exact hpc
  | if1 => exact hpc
  | if0 => exact hpc
  | ifdefL sym => exact hpc
  | defineL sym => exact hpc
  | errL => exact hpc
  | warnL => exact hpc
  | junk => exact hpc
  | orig v0 =>
    rw [stepActive_orig]
    exact Nat.mod_lt _ U32_pos
  | chkCur v0 =>
    rw [stepActive_chkCur, writeAbs_pc, (gate_fields _ _ _).2.1,
      (rangeErr_fields _ _).2.1]
    exact hpc
  | chkPrev v0 =>
    rw [stepActive_chkPrev, writeAbs_pc, (gate_fields _ _ _).2.1,
      (rangeErr_fields _ _).2.1]
    exact hpc
  | byteL v0 =>
    rw [byteL_spec]
    exact Nat.mod_lt _ U32_pos
  | words ws0 =>
    by_cases hlen : ws0.length = 0 ∨ 3 < ws0.length
    · rw [stepActive_words, if_pos hlen]
      exact hpc
    · rw [words_spec s ws0 hlen hpc]
      exact Nat.mod_lt _ U32_pos

lemma out_stepActive (s : St) (ln : Line) (hblk : blkInv s) (hpc : s.pc < U32)
    (hout : ∀ p ∈ s.out, p.2 ≠ ([] : List Nat)) :
    ∀ p ∈ (stepActive s ln).out, p.2 ≠ ([] : List Nat) := by
  cases ln with
  | elseL => exact hout
  | endifL => exact hout
  | if1 => exact hout
  | if0 => exact hout
  | ifdefL sym => exact hout
  | defineL sym => exact hout
  | errL => exact hout
  | warnL => exact hout
  | junk => exact hout
  | orig v0 =>
    intro p hp
    rw [stepActive_orig] at hp
    rw [show ({ rangeErr177777 (writeAbs AbsTy.blk s) (v0 % U32) with
        pc := v0 % U32, org := v0 % U32 } : St).out = (writeAbs AbsTy.blk s).out
      from (rangeErr_fields _ _).2.2.2.2.1] at hp
    exact out_writeAbs_blk s hblk hout p hp
  | chkCur v0 =>
    intro p hp
    rw [stepActive_chkCur] at hp
    have hbt : blkInv (if (rangeErr177777 s (v0 % U32)).pc ≠ v0 % U32 then
        mkErr (rangeErr177777 s (v0 % U32)) .consistErr
      else rangeErr177777 s (v0 % U32)) := by
      split
      · exact blkInv_rangeErr s _ hblk
      · exact blkInv_rangeErr s _ hblk
    refine out_writeAbs_blk _ hbt ?_ p hp
    have hto : (if (rangeErr177777 s (v0 % U32)).pc ≠ v0 % U32 then
        mkErr (rangeErr177777 s (v0 % U32)) .consistErr
      else rangeErr177777 s (v0 % U32)).out = s.out := by
      split
      · exact (rangeErr_fields s (v0 % U32)).2.2.2.2.1
      · exact (rangeErr_fields s (v0 % U32)).2.2.2.2.1
    rw [hto]
    exact hout
  | chkPrev v0 =>
    intro p hp
    rw [stepActive_chkPrev] at hp
    have hbt : blkInv (if ((rangeErr177777 s (v0 % U32)).pc + U32 - 2) % U32
        ≠ v0 % U32 then
        mkErr (rangeErr177777 s (v0 % U32)) .consistErr
      else rangeErr177777 s (v0 % U32)) := by
      split
      · exact blkInv_rangeErr s _ hblk
      · exact blkInv_rangeErr s _ hblk
    refine out_writeAbs_blk _ hbt ?_ p hp
    have hto : (if ((rangeErr177777 s (v0 % U32)).pc + U32 - 2) % U32
        ≠ v0 % U32 then
        mkErr (rangeErr177777 s (v0 % U32)) .consistErr
      else rangeErr177777 s (v0 % U32)).out = s.out := by
      split
      · exact (rangeErr_fields s (v0 % U32)).2.2.2.2.1
      · exact (rangeErr_fields s (v0 % U32)).2.2.2.2.1
    rw [hto]
    exact hout
  | byteL v0 =>
    intro p hp
    rw [byteL_spec] at hp
    exact hout p hp
  | words ws0 =>
    intro p hp
    by_cases hlen : ws0.length = 0 ∨ 3 < ws0.length
    · rw [stepActive_words, if_pos hlen] at hp
      exact hout p hp
    · rw [words_spec s ws0 hlen hpc] at hp
      exact hout p hp

lemma inv_step (s : St) (ln : Line) (h : Inv s) : Inv (step s ln) := by
  obtain ⟨hpc, hblk, hout⟩ := h
  refine ⟨?_, blkInv_step s ln hblk, ?_⟩
  · cases hc : isCond ln with
    | true =>
      rw [(step_cond_same s ln hc).1]
      exact hpc
    | false =>
      rw [step_eq_of_not_cond s ln hc]
      split
      · exact hpc
      · exact pc_stepActive s ln hpc
  · cases hc : isCond ln with
    | true =>
      rw [(step_cond_same s ln hc).2.2.2.2]
      exact hout
    | false =>
      rw [step_eq_of_not_cond s ln hc]
      split
      · exact hout
      · exact out_stepActive s ln hblk hpc hout

lemma inv_foldl (ls : List Line) (s : St) (h : Inv s) :
    Inv (ls.foldl step s) := by
  induction ls generalizing s with
  | nil => exact h
  | cons ln rest ih => exact ih (step s ln) (inv_step s ln h)

lemma inv_initSt (defs : List String) : Inv (initSt defs) := by
  refine ⟨?_, ⟨by simp [initSt], by simp [initSt]⟩, by simp [initSt]⟩
  show (0 : Nat) < U32
  decide

lemma inv_runLines (defs : List String) (ls : List Line) :
    Inv (runLines defs ls) :=
  inv_foldl ls (initSt defs) (inv_initSt defs)

lemma dec16_enc16 (w : Nat) (h : w < 65536) : dec16 (enc16 w) = w := by
  show w % 256 + 256 * (w >>> 8 % 256) = w
  rw [Nat.shiftRight_eq_div_pow, show (2 : Nat) ^ 8 = 256 from rfl]
  omega

lemma map_mod_id (ws : List Nat) (h : ∀ w ∈ ws, w < U32) :
    ws.map (· % U32) = ws := by
  induction ws with
  | nil => rfl
  | cons w rest ih =>
    simp only [List.map_cons, List.cons.injEq]
    constructor
    · exact Nat.mod_eq_of_lt (h w (by simp))
    · exact ih (fun x hx => h x (by simp [hx]))

lemma diags_ne_append (l : List Diag) (d : Diag) : l ≠ l ++ [d] := by
  intro heq
  have := congrArg List.length heq
  simp at this

/-- Claim C1: every block written by the emitter is serialized as a
little-endian 16-bit signature field with value 1, a little-endian 16-bit
length field equal to the number of data bytes plus 6, a little-endian
16-bit address field holding the block origin, the data bytes, and one
trailing checksum byte chosen so that the byte sum of the whole block
(signature, length, address, data and checksum) is congruent to 0 mod 256. -/
theorem c1_block_serialization (org : Nat) (data : List Nat)
    (horg : org ≤ 0o177777) (hlen : data.length + 6 < 65536) :
    (∃ c, serBlock org data
        = enc16 1 ++ enc16 (data.length + 6) ++ enc16 org ++ data ++ [c]
      ∧ c < 256
      ∧ dec16 (enc16 1) = 1
      ∧ dec16 (enc16 (data.length + 6)) = data.length + 6
      ∧ dec16 (enc16 org) = org
      ∧ (serBlock org data).sum % 256 = 0)
    ∧ ∀ (defs : List String) (ls : List Line),
        outBytes (runProg defs ls)
          = ((runProg defs ls).out.map (fun p => serBlock p.1 p.2)).flatten := by
  constructor
  · refine ⟨(0x100 - ((1 + (enc16 (data.length + 6)).sum + (enc16 org).sum
      + data.sum) % 0x100)) % 0x100, rfl, Nat.mod_lt _ (by decide),
      dec16_enc16 1 (by decide), dec16_enc16 _ hlen,
      dec16_enc16 _ (by omega), ?_⟩
    show (enc16 1 ++ enc16 (data.length + 6) ++ enc16 org ++ data
      ++ [(0x100 - ((1 + (enc16 (data.length + 6)).sum + (enc16 org).sum
        + data.sum) % 0x100)) % 0x100]).sum % 256 = 0
    have h1 : (enc16 1).sum = 1 := by decide
    simp only [List.sum_append, List.sum_cons, List.sum_nil, h1]
    omega
  · intro defs ls
    rfl

theorem c1_witness : (serBlock 0o1000 [0xE5, 0x14]).sum % 256 = 0 := by
  obtain ⟨c, _, _, _, _, _, hs⟩ :=
    (c1_block_serialization 0o1000 [0xE5, 0x14] (by decide) (by decide)).1
  exact hs

/-- Claim C2: for every input, the output artifact ends with exactly one
terminating halt block, emitted after any pending data block is flushed at
end of input; the halt block's address field is odd (value 1) and its data
length is 0, while every earlier block has nonzero data length. -/
theorem c2_halt_block (defs : List String) (ls : List Line) :
    ∃ hb : Nat × List Nat,
      (runProg defs ls).out = (writeAbs .blk (runLines defs ls)).out ++ [hb]
      ∧ hb.1 % 2 = 1 ∧ hb.1 = 1 ∧ hb.2.length = 0
      ∧ (∀ p ∈ (writeAbs .blk (runLines defs ls)).out, p.2.length ≠ 0)
      ∧ outBytes (runProg defs ls)
          = outBytes (writeAbs .blk (runLines defs ls)) ++ serBlock 1 [] := by
  have hinv := inv_runLines defs ls
  have hacc : (writeAbs .blk (runLines defs ls)).acc = [] :=
    (writeAbs_blk_spec _ hinv.2.1).1
  refine ⟨(1, []), ?_, rfl, rfl, rfl, ?_, ?_⟩
  · show (writeAbs .halt (writeAbs .blk (runLines defs ls))).out = _
    rw [show (writeAbs .halt (writeAbs .blk (runLines defs ls))).out
        = (writeAbs .blk (runLines defs ls)).out
          ++ [(1, (writeAbs .blk (runLines defs ls)).acc)] from rfl, hacc]
  · intro p hp hlen0
    exact out_writeAbs_blk _ hinv.2.1 hinv.2.2 p hp (List.length_eq_zero.mp hlen0)
  · show outBytes (writeAbs .halt (writeAbs .blk (runLines defs ls))) = _
    unfold outBytes
    rw [show (writeAbs .halt (writeAbs .blk (runLines defs ls))).out
        = (writeAbs .blk (runLines defs ls)).out
          ++ [(1, (writeAbs .blk (runLines defs ls)).acc)] from rfl, hacc]
    simp

/-- Claim C10: in every reachable state the pending-block flag holds exactly
when the accumulator is nonempty, and an empty accumulator forces the block
origin to equal pc; every operation (line step and block flush) preserves
this invariant. -/
theorem c10_pending_block_invariant :
    (∀ (defs : List String) (ls : List Line), blkInv (runLines defs ls))
    ∧ (∀ (s : St) (ln : Line), blkInv s → blkInv (step s ln))
    ∧ (∀ (s : St) (ty : AbsTy), blkInv s → blkInv (writeAbs ty s)) :=
  ⟨fun defs ls => (inv_runLines defs ls).2.1,
   fun s ln h => blkInv_step s ln h,
   fun s ty h => blkInv_writeAbs ty s h⟩

theorem c10_witness : blkInv (step (initSt []) (Line.byteL 5)) :=
  c10_pending_block_invariant.2.1 (initSt []) (Line.byteL 5)
    ⟨by simp [initSt], by simp [initSt]⟩

/-- Claim C8: a Data flush with an empty accumulator is a no-op (nothing is
written and no state changes); a Data flush with a nonempty accumulator
writes the block, leaves the accumulator empty and sets the next block's
origin to the current pc, without touching the error counter. -/
theorem c8_flush_semantics (s : St) (h : blkInv s) :
    (s.acc = [] → writeAbs .blk s = s)
    ∧ (s.acc ≠ [] →
        (writeAbs .blk s).acc = []
        ∧ (writeAbs .blk s).org = s.pc
        ∧ (writeAbs .blk s).out = s.out ++ [(s.org, s.acc)]
        ∧ (writeAbs .blk s).errs = s.errs) := by
  constructor
  · intro hacc
    cases hbv : s.have_blk with
    | false => simp [writeAbs, hbv]
    | true => exact absurd hacc (fun he => (h.1.mp hbv) he)
  · intro hacc
    have hbv : s.have_blk = true := h.1.mpr hacc
    simp [writeAbs, hbv, flushOut]

theorem c8_witness :
    writeAbs .blk (initSt []) = initSt []
    ∧ (writeAbs .blk (stepActive (initSt []) (Line.byteL 5))).org
        = (stepActive (initSt []) (Line.byteL 5)).pc := by
  constructor
  · exact (c8_flush_semantics (initSt [])
      ⟨by simp [initSt], by simp [initSt]⟩).1 rfl
  · exact ((c8_flush_semantics (stepActive (initSt []) (Line.byteL 5))
      (blkInv_stepActive _ _ ⟨by simp [initSt], by simp [initSt]⟩)).2
        (by decide)).2.1

/-- Claim C7 counterexample: the input `= 177777` followed by `b 0` reaches
a state with pc = 0200000 > 0177777 while reporting no error at all, so the
claimed reachable-state bound pc ≤ 0177777 is false. -/
theorem c7_pc_bound_counterexample :
    0o177777 < (runLines [] [Line.orig 0o177777, Line.byteL 0]).pc
    ∧ (runLines [] [Line.orig 0o177777, Line.byteL 0]).errs = 0 := by
  constructor
  · decide
  · decide

/-- Claim C7 amended: in every reachable state pc is a non-negative integer
strictly below 2^32 (the u4_t machine range), and every operation preserves
this bound; the spec's stricter bound 0177777 does not hold (pc may pass
0xffff without any diagnostic). -/
theorem c7_pc_u32_bound :
    (∀ (defs : List String) (ls : List Line), (runLines defs ls).pc < U32)
    ∧ (∀ (s : St) (ln : Line), s.pc < U32 → (step s ln).pc < U32)
    ∧ (∀ (s : St) (ty : AbsTy), s.pc < U32 → (writeAbs ty s).pc < U32) := by
  refine ⟨fun defs ls => (inv_runLines defs ls).1, ?_, ?_⟩
  · intro s ln h
    cases hc : isCond ln with
    | true =>
      rw [(step_cond_same s ln hc).1]
      exact h
    | false =>
      rw [step_eq_of_not_cond s ln hc]
      split
      · exact h
      · exact pc_stepActive s ln h
  · intro s ty h
    rw [writeAbs_pc]
    exact h

theorem c7_witness : (step (initSt []) (Line.byteL 5)).pc < U32 :=
  c7_pc_u32_bound.2.1 (initSt []) (Line.byteL 5) (by decide)

/-- Claim C6 counterexample: after an unmatched `#endif` the conditional
stack is corrupted (`lvl` drops to 0), and a subsequent `#if 0` block fails
to suppress its body: with the stray `#endif` the word 000001 is appended,
without it the accumulator stays empty — so subsequent conditional
directives do not behave as they would have without the unmatched `#endif`. -/
theorem c6_nesting_counterexample :
    (runLines [] [Line.endifL, Line.if0, Line.words [1], Line.endifL]).acc
      = [1, 0]
    ∧ (runLines [] [Line.if0, Line.words [1], Line.endifL]).acc = []
    ∧ (runLines [] [Line.endifL, Line.if0, Line.words [1], Line.endifL]).acc
        ≠ (runLines [] [Line.if0, Line.words [1], Line.endifL]).acc
    ∧ (runLines [] [Line.endifL, Line.if0, Line.words [1], Line.endifL]).lvl
        = 0 := by
  refine ⟨by decide, by decide, by decide, by decide⟩

/-- Claim C6 amended: an unmatched `#else` reports a NestingError and leaves
everything except the diagnostics unchanged; an unmatched `#endif`
(processed with no open frame, lvl = 1) reports a NestingError but corrupts
the level mask — lvl becomes 0, after which `#if 0` can no longer open a
suppressing frame; a lone `#endif` yields exactly one error. -/
theorem c6_nesting_amended :
    (∀ s : St, s.inside_if &&& s.lvl = 0 → step s .elseL = mkErr s .nestErr)
    ∧ (∀ s : St, s.lvl = 1 →
        (step s .endifL).errs = s.errs + 1
        ∧ (step s .endifL).diags = s.diags ++ [Diag.nestErr]
        ∧ (step s .endifL).lvl = 0)
    ∧ (∀ s : St, s.lvl = 0 →
        (step s .if0).ignore_input = s.ignore_input
        ∧ (step s .if0).lvl = 0)
    ∧ (runLines [] [Line.endifL]).errs = 1
    ∧ (runLines [] [Line.endifL]).lvl = 0 := by
  refine ⟨?_, ?_, ?_, by decide, by decide⟩
  · intro s h
    simp [step, h]
  · intro s h
    simp [step, h, mkErr]
  · intro s h
    simp [step, h]

theorem c6_amended_witness :
    step (initSt []) Line.elseL = mkErr (initSt []) Diag.nestErr :=
  c6_nesting_amended.1 (initSt []) (by decide)

/-- Claim C4: a `#ifdef SYM` directive opens a new frame whose suppression
bit (the new level's bit of ignore_input) is set iff SYM is absent from the
define set at the moment the directive is evaluated; scenario B: with FOO
predefined the run emits only word 000001, without FOO only word 000002. -/
theorem c4_ifdef_suppression :
    (∀ (s : St) (sym : String) (d : Nat), s.lvl = 2 ^ d → d + 1 < 32 →
        ((step s (.ifdefL sym)).ignore_input.testBit (d + 1) = true
          ↔ sym ∉ s.ifdefs)
        ∧ (step s (.ifdefL sym)).lvl = 2 ^ (d + 1))
    ∧ (runProg ["FOO"] [Line.ifdefL "FOO", Line.words [1], Line.elseL,
        Line.words [2], Line.endifL]).out = [(0, [1, 0]), (1, [])]
    ∧ (runProg [] [Line.ifdefL "FOO", Line.words [1], Line.elseL,
        Line.words [2], Line.endifL]).out = [(0, [2, 0]), (1, [])] := by
  refine ⟨?_, by decide, by decide⟩
  intro s sym d hlvl hd
  have hpow : (2 : Nat) ^ (d + 1) < 2 ^ 32 :=
    Nat.pow_lt_pow_right (by norm_num) hd
  have hl : s.lvl * 2 % U32 = 2 ^ (d + 1) := by
    rw [hlvl, show (2 : Nat) ^ d * 2 = 2 ^ (d + 1) from (pow_succ 2 d).symm]
    exact Nat.mod_eq_of_lt hpow
  cases hc : s.ifdefs.contains sym with
  | true =>
    have hmem : sym ∈ s.ifdefs := List.elem_iff.mp hc
    rw [show step s (.ifdefL sym)
        = { s with lvl := s.lvl * 2 % U32,
                   inside_if := s.inside_if ||| s.lvl * 2 % U32,
                   ignore_input :=
                     s.ignore_input &&& (U32M ^^^ s.lvl * 2 % U32) } by
      simp [step, hmem]]
    refine ⟨?_, hl⟩
    show (s.ignore_input &&& (U32M ^^^ s.lvl * 2 % U32)).testBit (d + 1)
        = true ↔ _
    rw [hl, Nat.testBit_and, Nat.testBit_xor,
      show U32M = 2 ^ 32 - 1 from rfl, Nat.testBit_two_pow_sub_one,
      Nat.testBit_two_pow_self]
    simp [hd, hmem]
  | false =>
    have hnm : sym ∉ s.ifdefs := by
      intro hm
      have hct : s.ifdefs.contains sym = true := List.elem_iff.mpr hm
      rw [hc] at hct
      exact Bool.false_ne_true hct
    rw [show step s (.ifdefL sym)
        = { s with lvl := s.lvl * 2 % U32,
                   inside_if := s.inside_if ||| s.lvl * 2 % U32,
                   ignore_input := s.ignore_input ||| s.lvl * 2 % U32 } by
      simp [step, hnm]]
    refine ⟨?_, hl⟩
    show (s.ignore_input ||| s.lvl * 2 % U32).testBit (d + 1) = true ↔ _
    rw [hl, Nat.testBit_or, Nat.testBit_two_pow_self]
    simp [hnm]

theorem c4_witness :
    (step (initSt ["FOO"]) (Line.ifdefL "BAR")).ignore_input.testBit 1
      = true := by
  have h := c4_ifdef_suppression.1 (initSt ["FOO"]) "BAR" 0 (by decide)
    (by decide)
  exact h.1.mpr (by decide)

/-- Claim C3: for every word value W in [0, 0177777] appended by a
data-word line with pc even, exactly two bytes are appended per word —
W & 0xFF first and (W >> 8) & 0xFF second — pc increases by exactly 2 per
word, and no error is reported. -/
theorem c3_word_append (s : St) (ws : List Nat)
    (hg : s.ignore_input = 0) (h1 : 1 ≤ ws.length) (h3 : ws.length ≤ 3)
    (hr : ∀ w ∈ ws, w ≤ 0o177777) (hev : s.pc % 2 = 0)
    (hfit : s.pc + 2 * ws.length < U32) :
    (step s (.words ws)).acc = s.acc ++ (ws.map enc16).flatten
    ∧ (step s (.words ws)).pc = s.pc + 2 * ws.length
    ∧ (step s (.words ws)).errs = s.errs
    ∧ ∀ w ∈ ws, enc16 w = [w % 256, (w >>> 8) % 256]
        ∧ (enc16 w).length = 2 := by
  have hpc : s.pc < U32 := by omega
  have hlen : ¬(ws.length = 0 ∨ 3 < ws.length) := by omega
  have hmap : ws.map (· % U32) = ws :=
    map_mod_id ws (fun w hw => lt_of_le_of_lt (hr w hw) (by decide))
  have hcnt : ws.countP (fun w => decide (0o177777 < w)) = 0 := by
    rw [List.countP_eq_zero]
    intro w hw
    simpa using Nat.not_lt.mpr (hr w hw)
  have hflt : ws.filter (fun w => decide (0o177777 < w)) = [] := by
    rw [List.filter_eq_nil_iff]
    intro w hw
    simpa using Nat.not_lt.mpr (hr w hw)
  rw [step_eq_of_not_cond s (.words ws) rfl, if_neg (by simp [hg]),
    words_spec s ws hlen hpc, hmap]
  refine ⟨rfl, ?_, ?_, ?_⟩
  · show (s.pc + 2 * ws.length) % U32 = s.pc + 2 * ws.length
    exact Nat.mod_eq_of_lt hfit
  · show s.errs + ws.countP (fun w => decide (0o177777 < w))
        + (if s.pc % 2 = 1 then 1 else 0) = s.errs
    rw [hcnt, if_neg (by omega)]
    omega
  · intro w hw
    exact ⟨rfl, rfl⟩

theorem c3_witness :
    (step (initSt []) (Line.words [0o12345])).acc = [0xE5, 0x14]
    ∧ (step (initSt []) (Line.words [0o12345])).pc = 2 := by
  have h := c3_word_append (initSt []) [0o12345] (by decide) (by decide)
    (by decide) (by decide) (by decide) (by decide)
  exact ⟨h.1.trans (by decide), h.2.1.trans (by decide)⟩

/-- Claim C9: error reporting on data lines is not atomic: a byte line with
value > 0377 reports a RangeError but still appends the byte value mod 256
and advances pc by 1; a word line still appends each word as its value mod
2^16 (two little-endian bytes) and advances pc by 2 per word while counting
one RangeError per out-of-range word plus one ParityError if pc is odd. -/
theorem c9_errors_not_atomic :
    (∀ (s : St) (v : Nat), s.ignore_input = 0 → 0o377 < v → v < U32 →
        (step s (.byteL v)).acc = s.acc ++ [v % 256]
        ∧ (step s (.byteL v)).pc = (s.pc + 1) % U32
        ∧ (step s (.byteL v)).errs = s.errs + 1
        ∧ (step s (.byteL v)).diags = s.diags ++ [Diag.rangeErr])
    ∧ (∀ (s : St) (ws : List Nat), s.ignore_input = 0 →
        1 ≤ ws.length → ws.length ≤ 3 → (∀ w ∈ ws, w < U32) → s.pc < U32 →
        (step s (.words ws)).acc
            = s.acc ++ (ws.map (fun w => enc16 (w % 65536))).flatten
        ∧ (step s (.words ws)).pc = (s.pc + 2 * ws.length) % U32
        ∧ (step s (.words ws)).errs
            = s.errs + ws.countP (fun w => decide (0o177777 < w))
              + (if s.pc % 2 = 1 then 1 else 0)) := by
  constructor
  · intro s v hg hv hvU
    rw [step_eq_of_not_cond s (.byteL v) rfl, if_neg (by simp [hg]),
      byteL_spec, Nat.mod_eq_of_lt hvU]
    refine ⟨rfl, rfl, ?_, ?_⟩
    · show s.errs + (if 0o377 < v then 1 else 0) = s.errs + 1
      rw [if_pos hv]
    · show s.diags ++ (if 0o377 < v then [Diag.rangeErr] else [])
          = s.diags ++ [Diag.rangeErr]
      rw [if_pos hv]
  · intro s ws hg h1 h3 hU hpc
    have hlen : ¬(ws.length = 0 ∨ 3 < ws.length) := by omega
    have hmap : ws.map (· % U32) = ws := map_mod_id ws hU
    rw [step_eq_of_not_cond s (.words ws) rfl, if_neg (by simp [hg]),
      words_spec s ws hlen hpc, hmap]
    refine ⟨?_, rfl, rfl⟩
    show s.acc ++ (ws.map enc16).flatten = _
    rw [List.map_congr_left (fun w _ => (enc16_mod_u16 w).symm)]

theorem c9_witness :
    (step (initSt []) (Line.byteL 0o400)).acc = [0]
    ∧ (step (initSt []) (Line.byteL 0o400)).errs = 1 := by
  have h := c9_errors_not_atomic.1 (initSt []) 0o400 (by decide) (by decide)
    (by decide)
  exact ⟨h.1.trans (by decide), h.2.2.1.trans (by decide)⟩

/-- Claim C5: a `:: V` line reports a ConsistencyError iff pc differs from
V, and a `: V` line reports one iff pc - 2 differs from V; in both cases
the error is non-fatal (it is only counted) and the pending block is
flushed regardless of the check's outcome (the accumulator empties and the
next origin becomes pc); scenario C: `= 0`, `000001`, `: 0` produces no
error at all. -/
theorem c5_consistency_checks :
    (∀ (s : St) (v : Nat), s.ignore_input = 0 → v ≤ 0o177777 → s.pc < U32 →
      blkInv s →
      ((step s (.chkCur v)).diags = s.diags ++ [Diag.consistErr] ↔ s.pc ≠ v)
      ∧ (step s (.chkCur v)).errs = s.errs + (if s.pc ≠ v then 1 else 0)
      ∧ (step s (.chkCur v)).acc = [] ∧ (step s (.chkCur v)).org = s.pc
      ∧ (step s (.chkCur v)).pc = s.pc)
    ∧ (∀ (s : St) (v : Nat), s.ignore_input = 0 → v ≤ 0o177777 →
      2 ≤ s.pc → s.pc < U32 → blkInv s →
      ((step s (.chkPrev v)).diags = s.diags ++ [Diag.consistErr]
        ↔ s.pc - 2 ≠ v)
      ∧ (step s (.chkPrev v)).errs
          = s.errs + (if s.pc - 2 ≠ v then 1 else 0)
      ∧ (step s (.chkPrev v)).acc = [] ∧ (step s (.chkPrev v)).org = s.pc)
    ∧ (runLines [] [Line.orig 0, Line.words [1], Line.chkPrev 0]).errs = 0
    ∧ (runLines [] [Line.orig 0, Line.words [1], Line.chkPrev 0]).diags
        = [] := by
  refine ⟨?_, ?_, by decide, by decide⟩
  · intro s v hg hv hpc hb
    have hvU : v < U32 := lt_of_le_of_lt hv (by decide)
    rw [step_eq_of_not_cond s (.chkCur v) rfl, if_neg (by simp [hg]),
      stepActive_chkCur, Nat.mod_eq_of_lt hvU]
    rw [show rangeErr177777 s v = s from by
      unfold rangeErr177777
      exact if_neg (by omega)]
    by_cases hne : s.pc = v
    · rw [if_neg (not_not_intro hne)]
      have hw := writeAbs_blk_spec s hb
      refine ⟨?_, ?_, hw.1, hw.2.2.1, hw.2.2.2.1⟩
      · rw [hw.2.2.2.2.2.1]
        constructor
        · intro he
          exact absurd he (diags_ne_append _ _)
        · intro h'
          exact absurd hne h'
      · rw [hw.2.2.2.2.1, if_neg (not_not_intro hne)]
        omega
    · rw [if_pos hne]
      have hw := writeAbs_blk_spec (mkErr s .consistErr) hb
      refine ⟨?_, ?_, hw.1, ?_, ?_⟩
      · rw [hw.2.2.2.2.2.1]
        simp [mkErr, hne]
      · rw [hw.2.2.2.2.1, if_pos hne]
        rfl
      · rw [hw.2.2.1]
        rfl
      · rw [hw.2.2.2.1]
        rfl
  · intro s v hg hv h2 hpc hb
    have hvU : v < U32 := lt_of_le_of_lt hv (by decide)
    rw [step_eq_of_not_cond s (.chkPrev v) rfl, if_neg (by simp [hg]),
      stepActive_chkPrev, Nat.mod_eq_of_lt hvU]
    rw [show rangeErr177777 s v = s from by
      unfold rangeErr177777
      exact if_neg (by omega)]
    have hU : U32 = 4294967296 := rfl
    have hpcm2 : (s.pc + U32 - 2) % U32 = s.pc - 2 := by
      have hpc2 : s.pc < 4294967296 := by omega
      rw [hU]
      omega
    rw [hpcm2]
    by_cases hne : s.pc - 2 = v
    · rw [if_neg (not_not_intro hne)]
      have hw := writeAbs_blk_spec s hb
      refine ⟨?_, ?_, hw.1, hw.2.2.1⟩
      · rw [hw.2.2.2.2.2.1]
        constructor
        · intro he
          exact absurd he (diags_ne_append _ _)
        · intro h'
          exact absurd hne h'
      · rw [hw.2.2.2.2.1, if_neg (not_not_intro hne)]
        omega
    · rw [if_pos hne]
      have hw := writeAbs_blk_spec (mkErr s .consistErr) hb
      refine ⟨?_, ?_, hw.1, ?_⟩
      · rw [hw.2.2.2.2.2.1]
        simp [mkErr, hne]
      · rw [hw.2.2.2.2.1, if_pos hne]
        rfl
      · rw [hw.2.2.1]
        rfl

theorem c5_witness :
    (step (runLines [] [Line.orig 0, Line.words [1]]) (Line.chkCur 2)).org
      = (runLines [] [Line.orig 0, Line.words [1]]).pc :=
  (c5_consistency_checks.1 (runLines [] [Line.orig 0, Line.words [1]]) 2
    (by decide) (by decide) (by decide) ⟨by decide, by decide⟩).2.2.2.1

end Txt2Abs
